import Mathlib

/-!
Shallow embedding of `genetic-trait-detector.py` (class `Rsid` and
`scan_genes`) and proofs of the specification claims about it.

Python strings are modelled as Lean `String`; Python's substring test
`needle in hay` is `hasSub`, `str.upper` is `upperStr` (ASCII case
mapping, via `Char.toUpper`, matching CPython on the catalog's ASCII
data), and `str.split(";")` is `splitSemi`.  A Python expression that
can raise (`a0, a1 = xs` with `len(xs) ≠ 2`) is embedded as an
`Option`-valued function returning `none` where CPython raises
`ValueError`.
-/

/-- Does `needle` occur at the very start of `hay`?  (List-of-chars level.) -/
def begWithL : List Char → List Char → Bool
  | [], _ => true
  | _ :: _, [] => false
  | c :: cs, d :: ds => c == d && begWithL cs ds

/-- Does `needle` occur anywhere inside `hay`?  (List-of-chars level.)
Embeds Python's `needle in hay` substring test. -/
def hasSubL (needle : List Char) : List Char → Bool
  | [] => begWithL needle []
  | d :: ds => begWithL needle (d :: ds) || hasSubL needle ds

/-- Python's `needle in hay` on strings. -/
def hasSub (needle hay : String) : Bool :=
  hasSubL needle.data hay.data

/-- Split a character list at every occurrence of `';'`.
Embeds Python's `s.split(";")` for the one-character separator. -/
def splitSemiL : List Char → List (List Char)
  | [] => [[]]
  | c :: cs =>
    if c == ';' then [] :: splitSemiL cs
    else
      match splitSemiL cs with
      | [] => [[c]]
      | p :: ps => (c :: p) :: ps

/-- Python's `s.split(";")` on strings. -/
def splitSemi (s : String) : List String :=
  (splitSemiL s.data).map (fun l => ⟨l⟩)

/-- Python's `s.upper()` (ASCII case mapping). -/
def upperStr (s : String) : String :=
  ⟨s.data.map Char.toUpper⟩

/-- One catalog entry: embedding of the fields of the Python class `Rsid`. -/
structure Rsid where
  rsid : String
  alleles : List String
  association : String
  description : String
deriving DecidableEq, Repr

/-- Embedding of `Rsid.__init__`: the Python constructor normalises a bare
string allele into a one-element tuple (callers pass the resulting list
here) and replaces a falsy — absent or empty — `description` with
`"Variant associated with {association}"`. -/
def Rsid.make (rsid : String) (alleles : List String)
    (association : String) (description : String) : Rsid :=
  { rsid := rsid
    alleles := alleles
    association := association
    description :=
      if description = "" then "Variant associated with " ++ association
      else description }

/-- Embedding of the inner function `_format_allele` of
`Rsid.allele_match_set`.  When the allele contains `";"`, CPython runs
`a0, a1 = allele.upper().split(";")`, which raises `ValueError` unless the
split has exactly two parts; that failure is `none` here. -/
def format_allele (allele : String) : Option (List String) :=
  if hasSub ";" allele then
    match splitSemi (upperStr allele) with
    | [a0, a1] =>
      some ["(" ++ a0 ++ ";" ++ a1 ++ ")", a0 ++ a1, a0 ++ "/" ++ a1,
            a0 ++ "\t" ++ a1]
    | _ => none
  else
    some ["(" ++ upperStr allele ++ ";" ++ upperStr allele ++ ")"]

/-- The flattening generator in `Rsid.allele_match_set`: concatenate each
allele's format tuple in allele order, propagating a formatting failure. -/
def collect_formats : List String → Option (List String)
  | [] => some []
  | a :: as =>
    match format_allele a with
    | none => none
    | some fs =>
      match collect_formats as with
      | none => none
      | some rest => some (fs ++ rest)

/-- Embedding of the property `Rsid.allele_match_set`: the flattened,
order-preserving concatenation of each allele's format tuple; `none` if
any allele's formatting raises. -/
def Rsid.allele_match_set (r : Rsid) : Option (List String) :=
  collect_formats r.alleles

/-- The `for allele_format in self.allele_match_set` loop body of
`Rsid.detect`: first format that is a substring of `line`, with its flag. -/
def firstFormatMatch (line : String) : List String → Bool × String
  | [] => (false, "")
  | f :: fs => if hasSub f line then (true, f) else firstFormatMatch line fs

/-- Embedding of `Rsid.detect`: `(False, "")` when the rsid is not a
substring of the line; otherwise scan the generated formats in order.
The format set is only computed after the rsid check, as in the source. -/
def Rsid.detect (r : Rsid) (line : String) : Option (Bool × String) :=
  if hasSub r.rsid line then
    match r.allele_match_set with
    | none => none
    | some fmts => some (firstFormatMatch line fmts)
  else
    some (false, "")

/-- Lookup in the identifier → record-line mapping.  A Python `dict` is
modelled as an association list queried only through this function. -/
def dictGet (m : List (String × String)) (k : String) : Option String :=
  match m with
  | [] => none
  | (k', v) :: rest => if k' = k then some v else dictGet rest k

/-- Embedding of `scan_genes`, with the catalog (`RSIDS` in the source) as
an explicit parameter: walk the catalog in order, skip identifiers absent
from the mapping, and collect `(definition, matched format)` for each
definition whose `detect` reports `True`.  An exception from `detect`
aborts the whole scan (`none`). -/
def scan_genes (catalog : List Rsid) (rsid_dict : List (String × String)) :
    Option (List (Rsid × String)) :=
  match catalog with
  | [] => some []
  | r :: rest =>
    match dictGet rsid_dict r.rsid with
    | none => scan_genes rest rsid_dict
    | some line =>
      match r.detect line with
      | none => none
      | some (flag, matched) =>
        match scan_genes rest rsid_dict with
        | none => none
        | some tail => some (if flag then (r, matched) :: tail else tail)

/-- Two successive runs of the scan on the same inputs, as a pair. -/
def run_scan_twice (catalog : List Rsid) (rsid_dict : List (String × String)) :
    Option (List (Rsid × String)) × Option (List (Rsid × String)) :=
  (scan_genes catalog rsid_dict, scan_genes catalog rsid_dict)

theorem begWithL_self_append (n s : List Char) : begWithL n (n ++ s) = true := by
  induction n with
  | nil => rfl
  | cons c cs ih => simp [begWithL, ih]

theorem hasSubL_of_begWithL {n h : List Char} (hb : begWithL n h = true) :
    hasSubL n h = true := by
  cases h with
  | nil => simpa [hasSubL] using hb
  | cons d ds => simp [hasSubL, hb]

theorem hasSubL_append_left (p : List Char) {n t : List Char}
    (ht : hasSubL n t = true) : hasSubL n (p ++ t) = true := by
  induction p with
  | nil => simpa using ht
  | cons c cs ih =>
    cases hcs : cs ++ t with
    | nil => simp [hcs] at ih; simp [hasSubL, hcs, ih]
    | cons d ds => simp [hasSubL, hcs] at ih ⊢; right; exact ih

theorem hasSubL_sandwich (p n s : List Char) :
    hasSubL n (p ++ (n ++ s)) = true :=
  hasSubL_append_left p (hasSubL_of_begWithL (begWithL_self_append n s))

theorem hasSub_sandwich (p n s : String) : hasSub n (p ++ n ++ s) = true := by
  have := hasSubL_sandwich p.data n.data s.data
  simpa [hasSub, String.data_append, List.append_assoc] using this

/-- C10: `Rsid` construction replaces an absent — and in particular an
empty-string — description with the synthesized default
`"Variant associated with {category}"`, so every constructed definition
has a non-empty description. -/
theorem rsid_make_description_nonempty :
    ∀ (r : String) (a : List String) (assoc d : String),
      (Rsid.make r a assoc "").description = "Variant associated with " ++ assoc ∧
      (Rsid.make r a assoc d).description ≠ "" := by
  intro r a assoc d
  refine ⟨by simp [Rsid.make], ?_⟩
  by_cases hd : d = ""
  · subst hd
    simp only [Rsid.make, if_pos rfl]
    intro hcontra
    have := congrArg String.data hcontra
    simp [String.data_append] at this
  · simp [Rsid.make, hd]

/-- C6: when the definition's identifier is not a substring of the record
line, `detect` returns `(False, "")` regardless of the line's genotype
content, without ever computing the format set. -/
theorem detect_absent_rsid (r : Rsid) (line : String)
    (h : hasSub r.rsid line = false) :
    r.detect line = some (false, "") := by
  simp [Rsid.detect, h]

theorem detect_absent_rsid_witness :
    hasSub (Rsid.make "rs999" ["A;A"] "Immunity" "").rsid "hello world" = false ∧
    (Rsid.make "rs999" ["A;A"] "Immunity" "").detect "hello world" =
      some (false, "") :=
  ⟨by decide, detect_absent_rsid (Rsid.make "rs999" ["A;A"] "Immunity" "")
    "hello world" (by decide)⟩

/-- C9: the scan is a pure function of the catalog and the record mapping;
two runs on the same inputs produce identical results. -/
theorem scan_genes_deterministic :
    ∀ (catalog : List Rsid) (rsid_dict : List (String × String)),
      (run_scan_twice catalog rsid_dict).1 = (run_scan_twice catalog rsid_dict).2 ∧
      scan_genes catalog rsid_dict = scan_genes catalog rsid_dict := by
  intro c m
  exact ⟨rfl, rfl⟩

/-- C7: with two catalog definitions for `rs1322784` (genotypes `C;C` and
`C;T`) and the record line `rs1322784<TAB>1<TAB>999<TAB>C<TAB>T`, the scan
matches only the `C;T` definition (via its tab format); the `C;C`
definition produces no match. -/
theorem scan_two_definitions_same_rsid :
    scan_genes
      [Rsid.make "rs1322784" ["C;C"] "Intelligence" "",
       Rsid.make "rs1322784" ["C;T"] "Intelligence" ""]
      [("rs1322784", "rs1322784\t1\t999\tC\tT")]
    = some [(Rsid.make "rs1322784" ["C;T"] "Intelligence" "", "C\tT")] := by
  decide

/-- C5 counterexample: on the record line `rs429358<TAB>17<TAB>12345<TAB>C<TAB>C`
the matched format is not `"CC"` — the two `C` alleles are tab-separated,
so `"CC"` is not a substring of the line. -/
theorem scan_apoe_matched_format_not_CC :
    scan_genes
      [Rsid.make "rs429358" ["C;C"] "Alzheimer\x27s Disease" "APOE4 homozygous"]
      [("rs429358", "rs429358\t17\t12345\tC\tC")]
    ≠ some [(Rsid.make "rs429358" ["C;C"] "Alzheimer\x27s Disease"
              "APOE4 homozygous", "CC")] := by
  decide

/-- C5 amended: the scan produces exactly one match and its matched format
is the tab form `C<TAB>C` — `(C;C)`, `CC` and `C/C` are not substrings of
the tab-delimited line, so the engine falls through to the fourth
generated format. -/
theorem scan_apoe_matched_format_tab :
    scan_genes
      [Rsid.make "rs429358" ["C;C"] "Alzheimer\x27s Disease" "APOE4 homozygous"]
      [("rs429358", "rs429358\t17\t12345\tC\tC")]
    = some [(Rsid.make "rs429358" ["C;C"] "Alzheimer\x27s Disease"
              "APOE4 homozygous", "C\tC")] := by
  decide

/-- C8 counterexample: the genotype `"A;B;C"` contains two separators, so
`a0, a1 = allele.upper().split(";")` raises `ValueError` in CPython —
the format-set computation does not totally produce a tuple, and `detect`
on a line containing the identifier propagates the failure. -/
theorem format_allele_two_separators_raises :
    format_allele "A;B;C" = none ∧
    (Rsid.make "rs1" ["A;B;C"] "Immunity" "").detect "rs1\tA\tB" = none := by
  constructor
  · decide
  · decide

theorem firstFormatMatch_eq_find (line : String) (fmts : List String) :
    firstFormatMatch line fmts =
      match fmts.find? (fun f => hasSub f line) with
      | some f => (true, f)
      | none => (false, "") := by
  induction fmts with
  | nil => rfl
  | cons f fs ih =>
    by_cases h : hasSub f line
    · simp [firstFormatMatch, List.find?_cons_of_pos, h]
    · rw [firstFormatMatch, if_neg (by simp [h]), List.find?_cons_of_neg]
      · exact ih
      · simp [h]

/-- C1: when the definition's identifier is a substring of the line and the
format set is generated, `detect` returns `present=true` with the first
generated format (in generation order) that is a substring of the line,
and `present=false` when no generated format is a substring. -/
theorem detect_first_matching_format (r : Rsid) (line : String)
    (fmts : List String)
    (hid : hasSub r.rsid line = true)
    (hset : r.allele_match_set = some fmts) :
    r.detect line =
      some (match fmts.find? (fun f => hasSub f line) with
            | some f => (true, f)
            | none => (false, "")) := by
  rw [Rsid.detect, if_pos hid, hset]
  simp only []
  rw [firstFormatMatch_eq_find]

theorem detect_first_matching_format_witness :
    hasSub (Rsid.make "rs4680" ["A;G"] "Intelligence" "").rsid
      "rs4680\t22\t100\tA\tG" = true ∧
    (Rsid.make "rs4680" ["A;G"] "Intelligence" "").allele_match_set =
      some ["(A;G)", "AG", "A/G", "A\tG"] ∧
    (Rsid.make "rs4680" ["A;G"] "Intelligence" "").detect
      "rs4680\t22\t100\tA\tG" = some (true, "A\tG") :=
  ⟨by decide, by decide,
    (detect_first_matching_format (Rsid.make "rs4680" ["A;G"] "Intelligence" "")
      "rs4680\t22\t100\tA\tG" ["(A;G)", "AG", "A/G", "A\tG"]
      (by decide) (by decide)).trans (by decide)⟩

/-- C4: a genotype without the separator `;` normalizes to exactly one
format string, the implied homozygous pair `(G;G)` built from the
uppercased token. -/
theorem format_allele_no_separator (g : String)
    (h : hasSub ";" g = false) :
    format_allele g = some ["(" ++ upperStr g ++ ";" ++ upperStr g ++ ")"] := by
  simp [format_allele, h]

theorem format_allele_no_separator_witness :
    hasSub ";" "d" = false ∧ format_allele "d" = some ["(D;D)"] :=
  ⟨by decide, (format_allele_no_separator "d" (by decide)).trans (by decide)⟩

theorem toNat_ofNat_of_valid {n : Nat} (h : n.isValidChar) :
    (Char.ofNat n).toNat = n := by
  simp [Char.ofNat, dif_pos h, Char.ofNatAux, Char.toNat, UInt32.toNat]

theorem toUpper_toNat_not_lower (c : Char) :
    ¬(97 ≤ (Char.toUpper c).toNat ∧ (Char.toUpper c).toNat ≤ 122) := by
  unfold Char.toUpper
  simp only []
  by_cases hc : c.toNat ≥ 97 ∧ c.toNat ≤ 122
  · rw [if_pos hc]
    have hv : (c.toNat - 32).isValidChar := Or.inl (by omega)
    rw [toNat_ofNat_of_valid hv]
    omega
  · rw [if_neg hc]
    exact hc

theorem toUpper_idem (c : Char) :
    Char.toUpper (Char.toUpper c) = Char.toUpper c := by
  have h := toUpper_toNat_not_lower c
  conv_lhs => rw [Char.toUpper]
  exact if_neg h

theorem upperStr_append (s t : String) :
    upperStr (s ++ t) = upperStr s ++ upperStr t := by
  apply String.ext
  simp [upperStr, String.data_append]

theorem mem_of_mem_splitSemiL {l x : List Char} (hx : x ∈ splitSemiL l)
    {c : Char} (hc : c ∈ x) : c ∈ l := by
  induction l generalizing x with
  | nil =>
    simp [splitSemiL] at hx
    subst hx
    simp at hc
  | cons d ds ih =>
    by_cases hd : d == ';'
    · rw [splitSemiL, if_pos hd] at hx
      rcases List.mem_cons.mp hx with h | h
      · subst h; simp at hc
      · exact List.mem_cons_of_mem _ (ih h hc)
    · rw [splitSemiL, if_neg hd] at hx
      cases hs : splitSemiL ds with
      | nil => rw [hs] at hx; simp at hx; subst hx; simp at hc; simp [hc]
      | cons p ps =>
        rw [hs] at hx
        rcases List.mem_cons.mp hx with h | h
        · subst h
          rcases List.mem_cons.mp hc with h2 | h2
          · simp [h2]
          · have hp : p ∈ splitSemiL ds := by rw [hs]; exact List.mem_cons_self _ _
            exact List.mem_cons_of_mem _ (ih hp h2)
        · have hx' : x ∈ splitSemiL ds := by rw [hs]; exact List.mem_cons_of_mem _ h
          exact List.mem_cons_of_mem _ (ih hx' hc)

theorem map_toUpper_eq_self {x : List Char}
    (h : ∀ c ∈ x, Char.toUpper c = c) : x.map Char.toUpper = x := by
  rw [List.map_congr_left h]
  exact List.map_id x

theorem upperStr_mem_invariant (g : String) {x : List Char}
    (hx : ∀ c ∈ x, c ∈ (upperStr g).data) :
    x.map Char.toUpper = x := by
  apply map_toUpper_eq_self
  intro c hc
  have hmem := hx c hc
  simp only [upperStr] at hmem
  obtain ⟨c', _, rfl⟩ := List.mem_map.mp hmem
  exact toUpper_idem c'

theorem splitSemi_eq_two {s a0 a1 : String}
    (h : splitSemi s = [a0, a1]) :
    splitSemiL s.data = [a0.data, a1.data] := by
  unfold splitSemi at h
  cases hs : splitSemiL s.data with
  | nil => rw [hs] at h; simp at h
  | cons p ps =>
    rw [hs] at h
    cases ps with
    | nil => simp at h
    | cons q qs =>
      cases qs with
      | nil =>
        simp at h
        obtain ⟨h0, h1⟩ := h
        rw [← h0, ← h1]
      | cons r rs => simp at h

theorem hasSub_data_sandwich (n hay : String) (p s : List Char)
    (h : hay.data = p ++ (n.data ++ s)) : hasSub n hay = true := by
  rw [hasSub, h]
  exact hasSubL_sandwich p n.data s

/-- C3: a genotype containing the separator `;`, splitting (after
upper-casing) into the two alleles `a0` and `a1`, normalizes to exactly the
four format strings `(a0;a1)`, `a0a1`, `a0/a1` and `a0<TAB>a1`, in that
order; in particular the result has exactly 4 elements, each invariant
under upper-casing and each containing both alleles as substrings. -/
theorem format_allele_two_alleles (g a0 a1 : String)
    (hsep : hasSub ";" g = true)
    (hsplit : splitSemi (upperStr g) = [a0, a1]) :
    format_allele g =
      some ["(" ++ a0 ++ ";" ++ a1 ++ ")", a0 ++ a1, a0 ++ "/" ++ a1,
            a0 ++ "\t" ++ a1] ∧
    ∀ fs, format_allele g = some fs →
      fs.length = 4 ∧ ∀ f ∈ fs, upperStr f = f ∧
        hasSub a0 f = true ∧ hasSub a1 f = true := by
  have hmain : format_allele g =
      some ["(" ++ a0 ++ ";" ++ a1 ++ ")", a0 ++ a1, a0 ++ "/" ++ a1,
            a0 ++ "\t" ++ a1] := by
    rw [format_allele, if_pos hsep, hsplit]
  refine ⟨hmain, ?_⟩
  intro fs hfs
  rw [hmain] at hfs
  injection hfs with hfs
  subst hfs
  refine ⟨rfl, ?_⟩
  have hdata := splitSemi_eq_two hsplit
  have ha0 : upperStr a0 = a0 := by
    apply String.ext
    apply upperStr_mem_invariant g
    intro c hc
    refine mem_of_mem_splitSemiL ?_ hc
    rw [hdata]
    exact List.mem_cons_self _ _
  have ha1 : upperStr a1 = a1 := by
    apply String.ext
    apply upperStr_mem_invariant g
    intro c hc
    refine mem_of_mem_splitSemiL ?_ hc
    rw [hdata]
    exact List.mem_cons_of_mem _ (List.mem_cons_self _ _)
  have happ : ∀ s t : String, upperStr s = s → upperStr t = t →
      upperStr (s ++ t) = s ++ t := by
    intro s t hs ht
    rw [upperStr_append, hs, ht]
  intro f hf
  simp only [List.mem_cons, List.not_mem_nil, or_false] at hf
  rcases hf with rfl | rfl | rfl | rfl
  · refine ⟨?_, ?_, ?_⟩
    · exact happ _ _ (happ _ _ (happ _ _ (happ _ _ (by decide) ha0) (by decide)) ha1) (by decide)
    · exact hasSub_data_sandwich a0 _ "(".data (";".data ++ (a1.data ++ ")".data))
        (by simp [String.data_append, List.append_assoc])
    · exact hasSub_data_sandwich a1 _ ("(".data ++ (a0.data ++ ";".data)) ")".data
        (by simp [String.data_append, List.append_assoc])
  · refine ⟨happ _ _ ha0 ha1, ?_, ?_⟩
    · exact hasSub_data_sandwich a0 _ [] a1.data
        (by simp [String.data_append])
    · exact hasSub_data_sandwich a1 _ a0.data []
        (by simp [String.data_append])
  · refine ⟨happ _ _ (happ _ _ ha0 (by decide)) ha1, ?_, ?_⟩
    · exact hasSub_data_sandwich a0 _ [] ("/".data ++ a1.data)
        (by simp [String.data_append, List.append_assoc])
    · exact hasSub_data_sandwich a1 _ (a0.data ++ "/".data) []
        (by simp [String.data_append, List.append_assoc])
  · refine ⟨happ _ _ (happ _ _ ha0 (by decide)) ha1, ?_, ?_⟩
    · exact hasSub_data_sandwich a0 _ [] ("\t".data ++ a1.data)
        (by simp [String.data_append, List.append_assoc])
    · exact hasSub_data_sandwich a1 _ (a0.data ++ "\t".data) []
        (by simp [String.data_append, List.append_assoc])

theorem format_allele_two_alleles_witness :
    hasSub ";" "c;t" = true ∧ splitSemi (upperStr "c;t") = ["C", "T"] ∧
    format_allele "c;t" = some ["(C;T)", "CT", "C/T", "C\tT"] :=
  ⟨by decide, by decide,
    ((format_allele_two_alleles "c;t" "C" "T" (by decide) (by decide)).1).trans
      (by decide)⟩

theorem hasSubL_singleton_mem {c : Char} {l : List Char}
    (h : hasSubL [c] l = true) : c ∈ l := by
  induction l with
  | nil => simp [hasSubL, begWithL] at h
  | cons d ds ih =>
    rw [hasSubL] at h
    simp only [Bool.or_eq_true] at h
    rcases h with h1 | h1
    · rw [begWithL] at h1
      simp at h1
      simp [h1]
    · exact List.mem_cons_of_mem _ (ih h1)

theorem splitSemiL_length_pos (l : List Char) : 1 ≤ (splitSemiL l).length := by
  induction l with
  | nil => simp [splitSemiL]
  | cons d ds ih =>
    by_cases hd : d == ';'
    · rw [splitSemiL, if_pos hd]; simp
    · rw [splitSemiL, if_neg hd]
      cases hs : splitSemiL ds with
      | nil => simp
      | cons p ps => simp

theorem two_le_splitSemiL_length {l : List Char} (h : ';' ∈ l) :
    2 ≤ (splitSemiL l).length := by
  induction l with
  | nil => simp at h
  | cons d ds ih =>
    by_cases hd : d == ';'
    · rw [splitSemiL, if_pos hd]
      have := splitSemiL_length_pos ds
      simp
      omega
    · rw [splitSemiL, if_neg hd]
      have hds : ';' ∈ ds := by
        rcases List.mem_cons.mp h with h1 | h1
        · exact absurd (by simp [h1.symm]) hd
        · exact h1
      have h2 := ih hds
      cases hs : splitSemiL ds with
      | nil => rw [hs] at h2; simp at h2
      | cons p ps => rw [hs] at h2; simp at h2 ⊢; omega

theorem format_allele_total_aux (g : String)
    (h : (splitSemi (upperStr g)).length ≤ 2) :
    ∃ fs, format_allele g = some fs := by
  by_cases hsep : hasSub ";" g = true
  · have hmem : (';' : Char) ∈ g.data := hasSubL_singleton_mem hsep
    have hmem2 : (';' : Char) ∈ (upperStr g).data := by
      simp only [upperStr]
      exact List.mem_map.mpr ⟨';', hmem, by decide⟩
    have h2 := two_le_splitSemiL_length hmem2
    have hlen : (splitSemi (upperStr g)).length =
        (splitSemiL (upperStr g).data).length := by
      simp [splitSemi]
    cases hs : splitSemi (upperStr g) with
    | nil => rw [hs] at hlen; simp at hlen; omega
    | cons x xs =>
      cases xs with
      | nil => rw [hs] at hlen; simp at hlen; omega
      | cons y ys =>
        cases ys with
        | nil =>
          refine ⟨["(" ++ x ++ ";" ++ y ++ ")", x ++ y, x ++ "/" ++ y,
                   x ++ "\t" ++ y], ?_⟩
          rw [format_allele, if_pos hsep, hs]
        | cons z zs =>
          rw [hs] at h
          simp at h
  · exact ⟨_, by rw [format_allele, if_neg hsep]⟩

theorem collect_formats_total (l : List String)
    (h : ∀ a ∈ l, ∃ x, format_allele a = some x) :
    ∃ ls, collect_formats l = some ls := by
  induction l with
  | nil => exact ⟨[], rfl⟩
  | cons a as ih =>
    obtain ⟨x, hx⟩ := h a (List.mem_cons_self _ _)
    obtain ⟨ls, hls⟩ := ih (fun b hb => h b (List.mem_cons_of_mem _ hb))
    exact ⟨x ++ ls, by rw [collect_formats, hx, hls]⟩

theorem detect_total {r : Rsid} (fs : List String)
    (hfs : r.allele_match_set = some fs) (line : String) :
    ∃ p, r.detect line = some p := by
  by_cases hid : hasSub r.rsid line = true
  · exact ⟨_, by rw [Rsid.detect, if_pos hid, hfs]⟩
  · exact ⟨_, by rw [Rsid.detect, if_neg hid]⟩

theorem allele_match_set_total (r : Rsid)
    (h : ∀ a ∈ r.alleles, (splitSemi (upperStr a)).length ≤ 2) :
    ∃ fs, r.allele_match_set = some fs := by
  obtain ⟨ls, hls⟩ := collect_formats_total r.alleles
    (fun a ha => format_allele_total_aux a (h a ha))
  exact ⟨ls, hls⟩

/-- C8 amended: normalization is total for every genotype string whose
(upper-cased) split at `;` has at most two parts — in particular for the
malformed genotype `"A;"`, whose trailing empty allele yields the four
formats `(A;)`, `A`, `A/` and `A<TAB>` without failing — and detection is
total for every definition whose genotypes all satisfy that bound.  (A
genotype with two or more separators, by contrast, makes CPython's
two-variable unpacking raise `ValueError`.) -/
theorem format_allele_total_of_at_most_one_separator (g : String)
    (h : (splitSemi (upperStr g)).length ≤ 2) :
    (∃ fs, format_allele g = some fs) ∧
    format_allele "A;" = some ["(A;)", "A", "A/", "A\t"] ∧
    ∀ (r : Rsid) (line : String),
      (∀ a ∈ r.alleles, (splitSemi (upperStr a)).length ≤ 2) →
      ∃ p, r.detect line = some p := by
  refine ⟨format_allele_total_aux g h, by decide, ?_⟩
  intro r line hr
  obtain ⟨fs, hfs⟩ := allele_match_set_total r hr
  exact detect_total fs hfs line

theorem format_allele_total_witness :
    (splitSemi (upperStr "A;")).length ≤ 2 ∧
    ((∃ fs, format_allele "A;" = some fs) ∧
      format_allele "A;" = some ["(A;)", "A", "A/", "A\t"] ∧
      ∀ (r : Rsid) (line : String),
        (∀ a ∈ r.alleles, (splitSemi (upperStr a)).length ≤ 2) →
        ∃ p, r.detect line = some p) :=
  ⟨by decide, format_allele_total_of_at_most_one_separator "A;" (by decide)⟩

theorem scan_genes_lookup_congr (catalog : List Rsid)
    (m1 m2 : List (String × String))
    (h : ∀ k, dictGet m1 k = dictGet m2 k) :
    scan_genes catalog m1 = scan_genes catalog m2 := by
  induction catalog with
  | nil => rfl
  | cons r rest ih =>
    simp only [scan_genes]
    rw [h r.rsid, ih]

theorem scan_genes_eq_filterMap (catalog : List Rsid)
    (m : List (String × String))
    (hwf : ∀ r ∈ catalog, ∃ fs, r.allele_match_set = some fs) :
    scan_genes catalog m =
      some (catalog.filterMap (fun r =>
        match dictGet m r.rsid with
        | none => none
        | some line =>
          match r.detect line with
          | some (true, f) => some (r, f)
          | _ => none)) := by
  induction catalog with
  | nil => rfl
  | cons r rest ih =>
    have hrest := ih (fun x hx => hwf x (List.mem_cons_of_mem _ hx))
    obtain ⟨fs, hfs⟩ := hwf r (List.mem_cons_self _ _)
    rw [scan_genes, List.filterMap_cons]
    cases hd : dictGet m r.rsid with
    | none =>
      simp only []
      rw [hrest]
    | some line =>
      obtain ⟨⟨flag, matched⟩, hdet⟩ := detect_total fs hfs line
      simp only []
      rw [hdet, hrest]
      cases flag with
      | true => rfl
      | false => rfl

/-- C2: for a catalog whose definitions all have well-formed format sets,
the scan result is exactly, in catalog iteration order, one
`(definition, matchedFormat)` pair for each catalog definition whose
identifier is a key of the mapping and whose `detect` on that key's line
reports present; absent identifiers are silently skipped, and the result
depends on the record mapping only through lookups, not through its
iteration order. -/
theorem scan_genes_catalog_order (catalog : List Rsid)
    (m : List (String × String))
    (hwf : ∀ r ∈ catalog, ∃ fs, r.allele_match_set = some fs) :
    scan_genes catalog m =
      some (catalog.filterMap (fun r =>
        match dictGet m r.rsid with
        | none => none
        | some line =>
          match r.detect line with
          | some (true, f) => some (r, f)
          | _ => none)) ∧
    ∀ m2, (∀ k, dictGet m k = dictGet m2 k) →
      scan_genes catalog m = scan_genes catalog m2 :=
  ⟨scan_genes_eq_filterMap catalog m hwf,
   fun m2 h => scan_genes_lookup_congr catalog m m2 h⟩

theorem scan_genes_catalog_order_witness :
    (∀ r ∈ [Rsid.make "rs123" ["A;A"] "Immunity" "",
            Rsid.make "rs456" ["G;G"] "Longevity" ""],
      ∃ fs, r.allele_match_set = some fs) ∧
    (scan_genes
        [Rsid.make "rs123" ["A;A"] "Immunity" "",
         Rsid.make "rs456" ["G;G"] "Longevity" ""]
        [("rs123", "rs123\t1\t10\tA\tA")] =
      some ([Rsid.make "rs123" ["A;A"] "Immunity" "",
             Rsid.make "rs456" ["G;G"] "Longevity" ""].filterMap (fun r =>
        match dictGet [("rs123", "rs123\t1\t10\tA\tA")] r.rsid with
        | none => none
        | some line =>
          match r.detect line with
          | some (true, f) => some (r, f)
          | _ => none)) ∧
    ∀ m2, (∀ k, dictGet [("rs123", "rs123\t1\t10\tA\tA")] k = dictGet m2 k) →
      scan_genes
        [Rsid.make "rs123" ["A;A"] "Immunity" "",
         Rsid.make "rs456" ["G;G"] "Longevity" ""]
        [("rs123", "rs123\t1\t10\tA\tA")] =
      scan_genes
        [Rsid.make "rs123" ["A;A"] "Immunity" "",
         Rsid.make "rs456" ["G;G"] "Longevity" ""] m2) := by
  have hwf : ∀ r ∈ [Rsid.make "rs123" ["A;A"] "Immunity" "",
            Rsid.make "rs456" ["G;G"] "Longevity" ""],
      ∃ fs, r.allele_match_set = some fs := by
    intro r hr
    simp only [List.mem_cons, List.not_mem_nil, or_false] at hr
    rcases hr with rfl | rfl
    · exact ⟨_, rfl⟩
    · exact ⟨_, rfl⟩
  exact ⟨hwf, scan_genes_catalog_order _ _ hwf⟩

example : hasSub "CC" "rs429358\t17\t12345\tC\tC" = false := by decide

example : hasSub "C\tC" "rs429358\t17\t12345\tC\tC" = true := by decide

example : format_allele "A;" = some ["(A;)", "A", "A/", "A\t"] := by decide

example : format_allele "A;B;C" = none := by decide

example : splitSemi (upperStr "c;t") = ["C", "T"] := by decide
